import Mathlib

/-!
Verification of the expression-matrix query engine of the CanDIG rnaget
service.  The repository carries two generations of the engine:
`rnaget_service/expression/rnaget_query.py` (older) and
`candig_rnaget/expression/rnaget_query.py` (newer), together with the API
glue in the respective `api/operations.py` files.  The definitions below are
shallow embeddings of those Python functions: matrices are rectangular lists
of rational values (exact stand-ins for the finite 64-bit floats the engine
compares with `<=` and `>`), byte identifiers are strings or byte lists, and
Python runtime errors surface as `Option`/`Except` results.
-/

/-- Byte strings as stored on HDF5 axes (`S20`-typed cells). -/
abbrev Bytes : Type := List UInt8

/-- First index of `id` in an axis array: models `np.where(arr == id)[0][0]`
(first occurrence wins, as in `_get_hdf5_indices`). -/
def axisLookup : List String → String → Option Nat
  | [], _ => none
  | a :: rest, i => if a == i then some 0 else (axisLookup rest i).map (· + 1)

/-- Membership test on a Python dict modelled as an assoc list. -/
def hasKey (d : List (String × α)) (k : String) : Bool :=
  d.any (fun p => p.1 == k)

/-- `d.get(k)` / `d[k]` on a Python dict modelled as an assoc list. -/
def dictGet (d : List (String × α)) (k : String) : Option α :=
  (d.find? (fun p => p.1 == k)).map (·.2)

/-- Python dict assignment `d[k] = v`: overwrites in place when the key is
present, appends otherwise. -/
def dictInsert (d : List (String × α)) (k : String) (v : α) : List (String × α) :=
  if hasKey d k then d.map (fun p => if p.1 == k then (k, v) else p)
  else d ++ [(k, v)]

/-- `dict(zip(...))` built from a pair list, later duplicates overwriting. -/
def dictOfPairs (l : List (String × α)) : List (String × α) :=
  l.foldl (fun d p => dictInsert d p.1 p.2) []

/-- The insertion loop shared by both versions of `_get_hdf5_indices`:
for each id in the query list, look up its first axis position and record it
unless the id was already recorded (Python dict key semantics). -/
def indicesCollect (arr : List String) : List String → List (String × Nat) → List (String × Nat)
  | [], acc => acc
  | i :: rest, acc =>
    if hasKey acc i then indicesCollect arr rest acc
    else
      match axisLookup arr i with
      | none => indicesCollect arr rest acc
      | some pos => indicesCollect arr rest (acc ++ [(i, pos)])

/-- `rnaget_service._get_hdf5_indices`: returns the ordered dict as built,
i.e. in query-list first-occurrence order, with no sorting step. -/
def getHdf5IndicesService (arr idList : List String) : List (String × Nat) :=
  indicesCollect arr idList []

/-- Comparison of index pairs by axis position (the key function of the
`sorted(indices.items(), key=lambda i: i[1])` call in the candig version). -/
def posLE (a b : String × Nat) : Prop := a.2 ≤ b.2

instance : DecidableRel posLE := fun a b => Nat.decLe a.2 b.2

instance : IsTotal (String × Nat) posLE := ⟨fun a b => Nat.le_total a.2 b.2⟩

instance : IsTrans (String × Nat) posLE := ⟨fun _ _ _ h h2 => Nat.le_trans h h2⟩

/-- `candig_rnaget._get_hdf5_indices`: same dict build, then the pairs are
sorted ascending by position (`sorted` is stable; so is insertion sort). -/
def getHdf5IndicesCandig (arr idList : List String) : List (String × Nat) :=
  List.insertionSort posLE (indicesCollect arr idList [])

/-- An opened HDF5 expression file: the two axes plus the dense matrix
(rows = samples, columns = features). -/
structure HFile where
  samples : List String
  features : List String
  expression : List (List ℚ)

/-- The structural invariant of a well-formed matrix file (spec section 3):
one row per sample and one column per feature. -/
def wellFormed (f : HFile) : Prop :=
  f.expression.length = f.samples.length ∧
    ∀ row ∈ f.expression, row.length = f.features.length

instance (f : HFile) : Decidable (wellFormed f) := by
  unfold wellFormed; infer_instance

/-- The `.json` results object: the ordered feature list and the
`expression` dict mapping sample id to its value list. -/
structure QueryResults where
  features : List String
  expression : List (String × List ℚ)
deriving DecidableEq

/-- Spec-side accessor: the expression value of sample row `i` at the first
axis position of feature `fid` (meaningful when `fid` is on the axis and the
file is well formed). -/
def exprVal (f : HFile) (i : Nat) (fid : String) : ℚ :=
  (f.expression.getD i []).getD ((axisLookup f.features fid).getD 0) 0

section AxisLemmas

theorem axisLookup_lt_length {arr : List String} {i : String} {n : Nat}
    (h : axisLookup arr i = some n) : n < arr.length := by
  induction arr generalizing n with
  | nil => simp [axisLookup] at h
  | cons a rest ih =>
    by_cases ha : a == i
    · have heq : axisLookup (a :: rest) i = some 0 := by simp [axisLookup, ha]
      rw [heq] at h
      injection h with h
      subst h
      simp
    · have heq : axisLookup (a :: rest) i = (axisLookup rest i).map (· + 1) := by
        simp [axisLookup, ha]
      rw [heq, Option.map_eq_some'] at h
      obtain ⟨m, hm, hmn⟩ := h
      subst hmn
      have := ih hm
      simp only [List.length_cons]
      omega

theorem axisLookup_getD {arr : List String} {i : String} {n : Nat}
    (h : axisLookup arr i = some n) : arr.getD n "" = i := by
  induction arr generalizing n with
  | nil => simp [axisLookup] at h
  | cons a rest ih =>
    by_cases ha : a == i
    · have heq : axisLookup (a :: rest) i = some 0 := by simp [axisLookup, ha]
      rw [heq] at h
      injection h with h
      subst h
      simpa using beq_iff_eq.mp ha
    · have heq : axisLookup (a :: rest) i = (axisLookup rest i).map (· + 1) := by
        simp [axisLookup, ha]
      rw [heq, Option.map_eq_some'] at h
      obtain ⟨m, hm, hmn⟩ := h
      subst hmn
      simpa using ih hm

theorem axisLookup_isSome_of_mem {arr : List String} {i : String}
    (h : i ∈ arr) : (axisLookup arr i).isSome = true := by
  induction arr with
  | nil => simp at h
  | cons a rest ih =>
    by_cases ha : a == i
    · simp [axisLookup, ha]
    · have : i ∈ rest := by
        rcases List.mem_cons.mp h with h1 | h1
        · exact absurd (by simp [h1]) ha
        · exact h1
      have := ih this
      simp [axisLookup, ha, Option.isSome_map]
      exact this

theorem axisLookup_eq_none_of_not_mem {arr : List String} {i : String}
    (h : i ∉ arr) : axisLookup arr i = none := by
  induction arr with
  | nil => rfl
  | cons a rest ih =>
    simp only [List.mem_cons, not_or] at h
    have ha : (a == i) = false := beq_eq_false_iff_ne.mpr (fun hh => h.1 hh.symm)
    simp [axisLookup, ha, ih h.2]

theorem axisLookup_injective {arr : List String} {i j : String} {n : Nat}
    (hi : axisLookup arr i = some n) (hj : axisLookup arr j = some n) : i = j := by
  have h1 := axisLookup_getD hi
  have h2 := axisLookup_getD hj
  rw [← h1, ← h2]

end AxisLemmas

section DictLemmas

theorem hasKey_iff_mem_keys {d : List (String × α)} {k : String} :
    hasKey d k = true ↔ k ∈ d.map Prod.fst := by
  unfold hasKey
  rw [List.any_eq_true]
  constructor
  · rintro ⟨p, hp, hpk⟩
    exact List.mem_map.mpr ⟨p, hp, (beq_iff_eq.mp hpk)⟩
  · rintro h
    obtain ⟨p, hp, hpk⟩ := List.mem_map.mp h
    exact ⟨p, hp, beq_iff_eq.mpr hpk⟩

theorem hasKey_append_single {d : List (String × α)} {k i : String} {v : α} :
    hasKey (d ++ [(i, v)]) k = (hasKey d k || (i == k)) := by
  unfold hasKey
  simp [List.any_append, BEq.comm]

/-- Generic pairwise weakening using membership. -/
theorem pairwise_imp_mem {l : List α} {R S : α → α → Prop} (h : l.Pairwise R)
    (him : ∀ a ∈ l, ∀ b ∈ l, R a b → S a b) : l.Pairwise S := by
  induction h with
  | nil => exact List.Pairwise.nil
  | cons ha _ ih =>
    refine List.Pairwise.cons (fun b hb => him _ (by simp) b (by simp [hb]) (ha b hb)) ?_
    exact ih (fun a hha b hhb => him a (by simp [hha]) b (by simp [hhb]))

end DictLemmas

section IndexResolution

theorem indicesCollect_mem {arr : List String} {p : String × Nat} :
    ∀ {l : List String} {acc : List (String × Nat)},
      p ∈ indicesCollect arr l acc ↔
        p ∈ acc ∨ (p.1 ∈ l ∧ axisLookup arr p.1 = some p.2 ∧ hasKey acc p.1 = false)
  | [], acc => by simp [indicesCollect]
  | i :: rest, acc => by
    unfold indicesCollect
    by_cases hk : hasKey acc i
    · rw [if_pos hk, indicesCollect_mem]
      constructor
      · rintro (h | ⟨h1, h2, h3⟩)
        · exact Or.inl h
        · exact Or.inr ⟨List.mem_cons_of_mem _ h1, h2, h3⟩
      · rintro (h | ⟨h1, h2, h3⟩)
        · exact Or.inl h
        · rcases List.mem_cons.mp h1 with h1 | h1
          · exact absurd hk (by rw [h1] at h3; simp [h3])
          · exact Or.inr ⟨h1, h2, h3⟩
    · rw [if_neg hk]
      cases hlook : axisLookup arr i with
      | none =>
        rw [indicesCollect_mem]
        constructor
        · rintro (h | ⟨h1, h2, h3⟩)
          · exact Or.inl h
          · exact Or.inr ⟨List.mem_cons_of_mem _ h1, h2, h3⟩
        · rintro (h | ⟨h1, h2, h3⟩)
          · exact Or.inl h
          · rcases List.mem_cons.mp h1 with h1 | h1
            · rw [h1, hlook] at h2; exact absurd h2 (by simp)
            · exact Or.inr ⟨h1, h2, h3⟩
      | some pos =>
        rw [indicesCollect_mem]
        have hkb : hasKey acc i = false := by
          cases h : hasKey acc i
          · rfl
          · exact absurd h hk
        constructor
        · rintro (h | ⟨h1, h2, h3⟩)
          · rcases List.mem_append.mp h with h | h
            · exact Or.inl h
            · have : p = (i, pos) := by simpa using h
              subst this
              exact Or.inr ⟨List.mem_cons_self _ _, hlook, hkb⟩
          · rw [hasKey_append_single] at h3
            simp only [Bool.or_eq_false_iff] at h3
            exact Or.inr ⟨List.mem_cons_of_mem _ h1, h2, h3.1⟩
        · rintro (h | ⟨h1, h2, h3⟩)
          · exact Or.inl (List.mem_append_left _ h)
          · rcases List.mem_cons.mp h1 with h1 | h1
            · rw [h1, hlook] at h2
              have : pos = p.2 := by simpa using h2
              have : p = (i, pos) := by
                cases p
                simp_all
              exact Or.inl (List.mem_append_right _ (by simp [this]))
            · by_cases hpi : p.1 = i
              · rw [hpi, hlook] at h2
                have hp2 : pos = p.2 := by simpa using h2
                refine Or.inl (List.mem_append_right _ ?_)
                cases p
                simp_all
              · refine Or.inr ⟨h1, h2, ?_⟩
                rw [hasKey_append_single, h3]
                simp only [Bool.false_or, beq_eq_false_iff_ne]
                exact fun hh => hpi hh.symm

theorem indicesCollect_keys_nodup {arr : List String} :
    ∀ {l : List String} {acc : List (String × Nat)},
      ((acc.map Prod.fst).Nodup) → ((indicesCollect arr l acc).map Prod.fst).Nodup
  | [], _, h => h
  | i :: rest, acc, h => by
    unfold indicesCollect
    by_cases hk : hasKey acc i
    · rw [if_pos hk]
      exact indicesCollect_keys_nodup h
    · rw [if_neg hk]
      cases hlook : axisLookup arr i with
      | none => exact indicesCollect_keys_nodup h
      | some pos =>
        refine indicesCollect_keys_nodup ?_
        rw [List.map_append]
        refine List.Nodup.append h (by simp) ?_
        intro a ha hb
        have : a = i := by simpa using hb
        subst this
        exact hk (hasKey_iff_mem_keys.mpr ha)

theorem getHdf5IndicesService_mem {arr idList : List String} {p : String × Nat} :
    p ∈ getHdf5IndicesService arr idList ↔
      p.1 ∈ idList ∧ axisLookup arr p.1 = some p.2 := by
  unfold getHdf5IndicesService
  rw [indicesCollect_mem]
  simp [hasKey]

theorem getHdf5IndicesService_keys_nodup {arr idList : List String} :
    ((getHdf5IndicesService arr idList).map Prod.fst).Nodup :=
  indicesCollect_keys_nodup (by simp)

theorem getHdf5IndicesCandig_mem {arr idList : List String} {p : String × Nat} :
    p ∈ getHdf5IndicesCandig arr idList ↔
      p.1 ∈ idList ∧ axisLookup arr p.1 = some p.2 := by
  unfold getHdf5IndicesCandig
  rw [List.mem_insertionSort]
  exact getHdf5IndicesService_mem

theorem getHdf5IndicesCandig_perm_service {arr idList : List String} :
    (getHdf5IndicesCandig arr idList).Perm (getHdf5IndicesService arr idList) :=
  List.perm_insertionSort posLE (indicesCollect arr idList [])

theorem getHdf5IndicesCandig_keys_nodup {arr idList : List String} :
    ((getHdf5IndicesCandig arr idList).map Prod.fst).Nodup := by
  have hperm := (@getHdf5IndicesCandig_perm_service arr idList).map Prod.fst
  exact hperm.nodup_iff.mpr getHdf5IndicesService_keys_nodup

/-- Strict version of the position order, used to show sorted results with
distinct positions are unique. -/
def posLT (a b : String × Nat) : Prop := a.2 < b.2

instance : IsAntisymm (String × Nat) posLT :=
  ⟨fun _ _ h h2 => absurd (Nat.lt_trans h h2) (Nat.lt_irrefl _)⟩

theorem getHdf5IndicesCandig_sorted {arr idList : List String} :
    List.Sorted posLE (getHdf5IndicesCandig arr idList) :=
  List.sorted_insertionSort posLE (indicesCollect arr idList [])

theorem getHdf5IndicesCandig_sorted_strict {arr idList : List String} :
    List.Sorted posLT (getHdf5IndicesCandig arr idList) := by
  have hle := @getHdf5IndicesCandig_sorted arr idList
  have hpairfst : (getHdf5IndicesCandig arr idList).Pairwise (fun p q => p.1 ≠ q.1) :=
    List.pairwise_map.mp getHdf5IndicesCandig_keys_nodup
  have hboth := List.Pairwise.and hle hpairfst
  refine pairwise_imp_mem hboth ?_
  intro a ha b hb hab
  have hla := (getHdf5IndicesCandig_mem.mp ha).2
  have hlb := (getHdf5IndicesCandig_mem.mp hb).2
  rcases Nat.lt_or_ge a.2 b.2 with h | h
  · exact h
  · exfalso
    have : a.2 = b.2 := Nat.le_antisymm hab.1 h
    rw [this] at hla
    exact hab.2 (axisLookup_injective hla hlb)

theorem getHdf5IndicesCandig_perm_input {arr idList idList₂ : List String}
    (h : idList₂.Perm idList) :
    getHdf5IndicesCandig arr idList₂ = getHdf5IndicesCandig arr idList := by
  have hnd₂ : (getHdf5IndicesCandig arr idList₂).Nodup :=
    List.Nodup.of_map Prod.fst getHdf5IndicesCandig_keys_nodup
  have hnd : (getHdf5IndicesCandig arr idList).Nodup :=
    List.Nodup.of_map Prod.fst getHdf5IndicesCandig_keys_nodup
  have hperm : (getHdf5IndicesCandig arr idList₂).Perm (getHdf5IndicesCandig arr idList) := by
    rw [List.perm_ext_iff_of_nodup hnd₂ hnd]
    intro p
    rw [getHdf5IndicesCandig_mem, getHdf5IndicesCandig_mem, h.mem_iff]
  exact List.eq_of_perm_of_sorted hperm
    getHdf5IndicesCandig_sorted_strict getHdf5IndicesCandig_sorted_strict

end IndexResolution

/-- C2 counterexample: on axis `[A, B]`, resolving the list `[B, A]` with the
`rnaget_service` version of `_get_hdf5_indices` returns the pairs in input
order `[(B, 1), (A, 0)]`, which is not sorted ascending by position. -/
theorem C2_counterexample :
    getHdf5IndicesService ["A", "B"] ["B", "A"] = [("B", 1), ("A", 0)] ∧
      ¬ List.Sorted posLE (getHdf5IndicesService ["A", "B"] ["B", "A"]) := by
  constructor
  · rfl
  · decide

/-- C2 (amended): the `candig_rnaget` index resolution returns
(identifier, position) pairs sorted ascending by axis position, the result is
invariant under permutations of the input list, and both resolutions return
exactly the pairs (id, first axis position of id) for the ids of the input
list present on the axis; the older `rnaget_service` resolution returns the
same pairs but in input first-occurrence order rather than sorted. -/
theorem C2_indices_sorted :
    ∀ (arr idList : List String),
      List.Sorted posLE (getHdf5IndicesCandig arr idList) ∧
      (∀ idList₂, idList₂.Perm idList →
        getHdf5IndicesCandig arr idList₂ = getHdf5IndicesCandig arr idList) ∧
      (∀ p : String × Nat, p ∈ getHdf5IndicesCandig arr idList ↔
        p.1 ∈ idList ∧ axisLookup arr p.1 = some p.2) ∧
      (∀ p : String × Nat, p ∈ getHdf5IndicesService arr idList ↔
        p.1 ∈ idList ∧ axisLookup arr p.1 = some p.2) :=
  fun _ _ =>
    ⟨getHdf5IndicesCandig_sorted, fun _ h => getHdf5IndicesCandig_perm_input h,
     fun _ => getHdf5IndicesCandig_mem, fun _ => getHdf5IndicesService_mem⟩

/-- Witness for C2: the permutation clause applied to a concrete input. -/
theorem C2_indices_sorted_witness :
    getHdf5IndicesCandig ["A", "B"] ["A", "B"] = getHdf5IndicesCandig ["A", "B"] ["B", "A"] ∧
      List.Sorted posLE (getHdf5IndicesCandig ["A", "B"] ["B", "A"]) :=
  ⟨(C2_indices_sorted ["A", "B"] ["B", "A"]).2.1 ["A", "B"] (by decide),
   (C2_indices_sorted ["A", "B"] ["B", "A"]).1⟩

/-- The comparator selected inside `_search_features`: `x > y` when
`ft_type == "min"`, and `x <= y` for every other value of `ft_type`. -/
def ftCompare (ftType : String) (x y : ℚ) : Bool :=
  if ftType == "min" then decide (x > y) else decide (x ≤ y)

/-- One sample row of the `rnaget_service` threshold loop: walk the
(feature, threshold) pairs; on the first failing comparison stop (`break`)
with the row excluded; a feature id absent from `indices` raises `KeyError`
(`none`); otherwise the row is included with the values collected in pair
order. -/
def scanRow (idx : List (String × Nat)) (cmp : ℚ → ℚ → Bool) (row : List ℚ) :
    List (String × ℚ) → Option (Option (List ℚ))
  | [] => some (some [])
  | (fid, thr) :: rest =>
    match dictGet idx fid with
    | none => none
    | some fi =>
      if cmp (row.getD fi 0) thr then
        match scanRow idx cmp row rest with
        | none => none
        | some none => some none
        | some (some vs) => some (some (row.getD fi 0 :: vs))
      else some none

/-- The `for idx, sample in enumerate(expression)` loop of the threshold
branch: collects (decoded sample id, collected values) for included rows. -/
def scanRows (samples : List String) (idx : List (String × Nat)) (cmp : ℚ → ℚ → Bool)
    (ftList : List (String × ℚ)) : List (List ℚ) → Nat → Option (List (String × List ℚ))
  | [], _ => some []
  | row :: rest, i =>
    match scanRow idx cmp row ftList with
    | none => none
    | some none => scanRows samples idx cmp ftList rest (i + 1)
    | some (some vs) =>
      (scanRows samples idx cmp ftList rest (i + 1)).map
        (fun tl => (samples.getD i "", vs) :: tl)

/-- Python `zip(*cols)`: tuples of one element per column, truncated at the
shortest column (all columns have the full sample count here). -/
def pyZip (cols : List (List ℚ)) : List (List ℚ) :=
  match cols with
  | [] => []
  | c :: cs =>
    let n := (c :: cs).foldl (fun m col => min m col.length) c.length
    (List.range n).map (fun i => (c :: cs).map (fun col => col.getD i 0))

/-- `rnaget_service._search_features` for `.json` output without metadata.
The guard `if ft_list and ft_type` uses Python truthiness: an empty pair
list or an empty comparator string selects the plain feature-set branch. -/
def searchFeaturesService (f : HFile) (featureList : List String)
    (ftList : List (String × ℚ)) (ftType : String) : Option QueryResults :=
  let indices := getHdf5IndicesService f.features featureList
  if !ftList.isEmpty && !(ftType == "") then
    (scanRows f.samples indices (ftCompare ftType) ftList f.expression 0).map
      (fun pairs => { features := featureList, expression := dictOfPairs pairs })
  else
    let cols := indices.map (fun p => f.expression.map (fun row => row.getD p.2 0))
    some { features := indices.map Prod.fst,
           expression :=
             if !cols.isEmpty then dictOfPairs (f.samples.zip (pyZip cols))
             else dictOfPairs (f.samples.zip ([] : List (List ℚ))) }

/-- `_search_sample` (identical in both versions) for `.json` output without
metadata: locate the sample row, and if found return the full feature axis
together with the row; otherwise return the empty results template. -/
def searchSample (f : HFile) (sampleId : String) : QueryResults :=
  match dictGet (getHdf5IndicesService f.samples [sampleId]) sampleId with
  | none => { features := [], expression := [] }
  | some i =>
    { features := f.features,
      expression := dictInsert [] sampleId (f.expression.getD i []) }

/-- `rnaget_service.search_threshold` with `feature_label="id"`:
`list(zip(*ft_list))[0]` raises `IndexError` on an empty pair list (`none`),
otherwise `_search_features` runs with the pair list and comparator tag. -/
def searchThresholdService (f : HFile) (ftList : List (String × ℚ))
    (ftType : String) : Option QueryResults :=
  match ftList with
  | [] => none
  | _ :: _ => searchFeaturesService f (ftList.map Prod.fst) ftList ftType

section MoreDictLemmas

theorem hasKey_eq_isSome_dictGet {d : List (String × α)} {k : String} :
    hasKey d k = (dictGet d k).isSome := by
  induction d with
  | nil => rfl
  | cons p t ih =>
    unfold hasKey dictGet at *
    cases hp : (p.1 == k) <;>
      first
      | (simp [List.find?, hp, List.any_cons]; simpa using ih)
      | simp [List.find?, hp, List.any_cons]

theorem dictGet_append_single {d : List (String × α)} {k i : String} {v : α} :
    dictGet (d ++ [(i, v)]) k =
      ((dictGet d k).or (if (i == k) = true then some v else none)) := by
  induction d with
  | nil =>
    unfold dictGet
    cases hik : (i == k) <;> simp [List.find?, hik]
  | cons p t ih =>
    unfold dictGet at *
    cases hp : (p.1 == k)
    · simp only [List.cons_append, List.find?, hp]
      exact ih
    · simp [List.find?, hp]

theorem dictGet_eq_none_of_hasKey_false {d : List (String × α)} {k : String}
    (h : hasKey d k = false) : dictGet d k = none := by
  rw [hasKey_eq_isSome_dictGet] at h
  cases hd : dictGet d k
  · rfl
  · rw [hd] at h
    simp at h

theorem dictInsert_keys {d : List (String × α)} {k : String} {v : α} :
    (dictInsert d k v).map Prod.fst =
      if hasKey d k then d.map Prod.fst else d.map Prod.fst ++ [k] := by
  unfold dictInsert
  by_cases h : hasKey d k
  · rw [if_pos h, if_pos h, List.map_map, List.map_congr_left]
    intro p _
    cases hp : (p.1 == k)
    · have hne : ¬ p.1 = k := fun hh => by rw [hh] at hp; simp at hp
      simp [hne]
    · have heq : p.1 = k := beq_iff_eq.mp hp
      simp [heq]
  · rw [if_neg h, if_neg h]
    simp

theorem hasKey_eq_keys_any {d : List (String × α)} {k : String} :
    hasKey d k = (d.map Prod.fst).any (· == k) := by
  unfold hasKey
  induction d with
  | nil => rfl
  | cons p t ih => simp only [List.map_cons, List.any_cons, ih]

theorem foldl_dictInsert_keys_congr {l₁ : List (String × α)} :
    ∀ {l₂ : List (String × β)} {acc₁ : List (String × α)} {acc₂ : List (String × β)},
      l₁.map Prod.fst = l₂.map Prod.fst → acc₁.map Prod.fst = acc₂.map Prod.fst →
      (l₁.foldl (fun d p => dictInsert d p.1 p.2) acc₁).map Prod.fst =
        (l₂.foldl (fun d p => dictInsert d p.1 p.2) acc₂).map Prod.fst := by
  induction l₁ with
  | nil =>
    intro l₂ acc₁ acc₂ hl hacc
    cases l₂ with
    | nil => simpa using hacc
    | cons q t => simp at hl
  | cons p t ih =>
    intro l₂ acc₁ acc₂ hl hacc
    cases l₂ with
    | nil => simp at hl
    | cons q t₂ =>
      simp only [List.map_cons, List.cons.injEq] at hl
      simp only [List.foldl_cons]
      refine ih hl.2 ?_
      rw [dictInsert_keys, dictInsert_keys, hl.1, hacc,
        hasKey_eq_keys_any, hasKey_eq_keys_any, hacc]

theorem dictOfPairs_keys_congr {l₁ : List (String × α)} {l₂ : List (String × β)}
    (h : l₁.map Prod.fst = l₂.map Prod.fst) :
    (dictOfPairs l₁).map Prod.fst = (dictOfPairs l₂).map Prod.fst :=
  foldl_dictInsert_keys_congr h rfl

theorem foldl_dictInsert_mem_keys {k : String} :
    ∀ {l : List (String × α)} {acc : List (String × α)},
      (k ∈ (l.foldl (fun d p => dictInsert d p.1 p.2) acc).map Prod.fst ↔
        k ∈ acc.map Prod.fst ∨ k ∈ l.map Prod.fst)
  | [], acc => by simp
  | p :: t, acc => by
    simp only [List.foldl_cons]
    rw [foldl_dictInsert_mem_keys, dictInsert_keys]
    by_cases h : hasKey acc p.1
    · rw [if_pos h]
      constructor
      · rintro (h1 | h1)
        · exact Or.inl h1
        · exact Or.inr (by simp [h1])
      · rintro (h1 | h1)
        · exact Or.inl h1
        · rcases (by simpa using h1 : k = p.1 ∨ k ∈ t.map Prod.fst) with h1 | h1
          · subst h1
            exact Or.inl (hasKey_iff_mem_keys.mp h)
          · exact Or.inr h1
    · rw [if_neg h]
      constructor
      · rintro (h1 | h1)
        · rcases List.mem_append.mp h1 with h1 | h1
          · exact Or.inl h1
          · exact Or.inr (by simp [(by simpa using h1 : k = p.1)])
        · exact Or.inr (by simp [h1])
      · rintro (h1 | h1)
        · exact Or.inl (List.mem_append_left _ h1)
        · rcases (by simpa using h1 : k = p.1 ∨ k ∈ t.map Prod.fst) with h1 | h1
          · exact Or.inl (List.mem_append_right _ (by simp [h1]))
          · exact Or.inr h1

theorem dictOfPairs_mem_keys {l : List (String × α)} {k : String} :
    k ∈ (dictOfPairs l).map Prod.fst ↔ k ∈ l.map Prod.fst := by
  unfold dictOfPairs
  rw [foldl_dictInsert_mem_keys]
  simp

theorem dictOfPairs_hasKey {l : List (String × α)} {k : String} :
    hasKey (dictOfPairs l) k = true ↔ k ∈ l.map Prod.fst := by
  rw [hasKey_iff_mem_keys, dictOfPairs_mem_keys]

theorem foldl_dictInsert_keys_nodup :
    ∀ {l : List (String × α)} {acc : List (String × α)},
      (acc.map Prod.fst).Nodup →
      ((l.foldl (fun d p => dictInsert d p.1 p.2) acc).map Prod.fst).Nodup
  | [], _, h => h
  | p :: t, acc, h => by
    simp only [List.foldl_cons]
    refine foldl_dictInsert_keys_nodup ?_
    rw [dictInsert_keys]
    by_cases hk : hasKey acc p.1
    · rw [if_pos hk]
      exact h
    · rw [if_neg hk]
      refine List.Nodup.append h (by simp) ?_
      intro a ha hb
      have : a = p.1 := by simpa using hb
      subst this
      exact hk (hasKey_iff_mem_keys.mpr ha)

theorem dictOfPairs_keys_nodup {l : List (String × α)} :
    ((dictOfPairs l).map Prod.fst).Nodup :=
  foldl_dictInsert_keys_nodup (by simp)

end MoreDictLemmas

section ResolutionGet

theorem dictGet_indicesCollect {arr : List String} {k : String} :
    ∀ {l : List String} {acc : List (String × Nat)},
      dictGet (indicesCollect arr l acc) k =
        (dictGet acc k).or (if k ∈ l then axisLookup arr k else none)
  | [], acc => by simp [indicesCollect]
  | i :: rest, acc => by
    unfold indicesCollect
    by_cases hki : k = i
    · subst hki
      rw [if_pos (List.mem_cons_self _ _)]
      by_cases hk : hasKey acc k
      · rw [if_pos hk, dictGet_indicesCollect]
        obtain ⟨v, hv⟩ : ∃ v, dictGet acc k = some v := by
          have hs := hasKey_eq_isSome_dictGet (d := acc) (k := k)
          rw [hk] at hs
          exact Option.isSome_iff_exists.mp hs.symm
        rw [hv]
        simp
      · rw [if_neg hk]
        have haccnone : dictGet acc k = none :=
          dictGet_eq_none_of_hasKey_false (by simpa using hk)
        cases hlook : axisLookup arr k with
        | none =>
          rw [dictGet_indicesCollect, haccnone, hlook]
          simp [Option.none_or]
        | some pos =>
          rw [dictGet_indicesCollect, dictGet_append_single, haccnone, hlook]
          simp
    · have hmemiff : k ∈ rest ↔ k ∈ i :: rest := by simp [List.mem_cons, hki]
      by_cases hk : hasKey acc i
      · rw [if_pos hk, dictGet_indicesCollect]
        exact congrArg (fun z => (dictGet acc k).or z) (if_congr hmemiff rfl rfl)
      · rw [if_neg hk]
        cases hlook : axisLookup arr i with
        | none =>
          rw [dictGet_indicesCollect]
          exact congrArg (fun z => (dictGet acc k).or z) (if_congr hmemiff rfl rfl)
        | some pos =>
          rw [dictGet_indicesCollect, dictGet_append_single]
          have hbeq : (i == k) = false :=
            beq_eq_false_iff_ne.mpr (fun hh => hki hh.symm)
          rw [hbeq]
          simp only [Bool.false_eq_true, if_false, Option.or_none]
          exact congrArg (fun z => (dictGet acc k).or z) (if_congr hmemiff rfl rfl)

theorem dictGet_getHdf5IndicesService {arr idList : List String} {k : String}
    (h : k ∈ idList) :
    dictGet (getHdf5IndicesService arr idList) k = axisLookup arr k := by
  unfold getHdf5IndicesService
  rw [dictGet_indicesCollect, if_pos h]
  rfl

end ResolutionGet

section ThresholdClosedForm

theorem scanRow_eq {idx : List (String × Nat)} {cmp : ℚ → ℚ → Bool} {row : List ℚ} :
    ∀ {ftl : List (String × ℚ)}, (∀ p ∈ ftl, (dictGet idx p.1).isSome) →
      scanRow idx cmp row ftl =
        some (if ftl.all (fun p => cmp (row.getD ((dictGet idx p.1).getD 0) 0) p.2)
              then some (ftl.map (fun p => row.getD ((dictGet idx p.1).getD 0) 0))
              else none)
  | [], _ => by simp [scanRow]
  | (fid, thr) :: t, hpres => by
    obtain ⟨fi, hfi⟩ := Option.isSome_iff_exists.mp (hpres (fid, thr) (by simp))
    have hfi2 : dictGet idx fid = some fi := hfi
    have ht : ∀ q ∈ t, (dictGet idx q.1).isSome := fun q hq => hpres q (by simp [hq])
    rw [scanRow, hfi2, scanRow_eq ht]
    simp only [List.all_cons, List.map_cons, hfi2, Option.getD_some]
    by_cases hcmp : cmp (row.getD fi 0) thr
    · by_cases hall : t.all (fun p => cmp (row.getD ((dictGet idx p.1).getD 0) 0) p.2)
      · simp only [hcmp, hall, Bool.and_self, if_true]
      · simp only [hcmp, hall, Bool.true_and, if_false, Bool.false_eq_true, if_true]
    · simp only [hcmp, Bool.false_and, Bool.false_eq_true, if_false]

theorem scanRows_eq {samples : List String} {idx : List (String × Nat)}
    {cmp : ℚ → ℚ → Bool} {ftl : List (String × ℚ)}
    (hpres : ∀ p ∈ ftl, (dictGet idx p.1).isSome) :
    ∀ (rows : List (List ℚ)) (i : Nat),
      scanRows samples idx cmp ftl rows i =
        some ((List.enumFrom i rows).filterMap (fun er =>
          if ftl.all (fun p => cmp (er.2.getD ((dictGet idx p.1).getD 0) 0) p.2)
          then some (samples.getD er.1 "",
            ftl.map (fun p => er.2.getD ((dictGet idx p.1).getD 0) 0))
          else none))
  | [], i => by simp [scanRows, List.enumFrom]
  | row :: rest, i => by
    rw [scanRows, scanRow_eq hpres, scanRows_eq hpres rest (i + 1)]
    have henum : List.enumFrom i (row :: rest) = (i, row) :: List.enumFrom (i + 1) rest := rfl
    rw [henum]
    by_cases hall : ftl.all (fun p => cmp (row.getD ((dictGet idx p.1).getD 0) 0) p.2)
    · simp only [List.filterMap_cons, hall, eq_self_iff_true, if_true, Option.map_some']
    · simp only [List.filterMap_cons, hall, Bool.false_eq_true, if_false]

/-- Spec-side predicate: every (feature, threshold) pair of the list passes
the comparator on the given row. -/
def rowPass (features : List String) (ftType : String) (ftList : List (String × ℚ))
    (row : List ℚ) : Bool :=
  ftList.all (fun p => ftCompare ftType (row.getD ((axisLookup features p.1).getD 0) 0) p.2)

/-- Spec-side value collection: the row values at the pair features, in pair
order. -/
def rowVals (features : List String) (ftList : List (String × ℚ)) (row : List ℚ) : List ℚ :=
  ftList.map (fun p => row.getD ((axisLookup features p.1).getD 0) 0)

/-- The (sample id, values) pairs collected by the threshold scan, one for
every matrix row passing all pairs. -/
def thresholdPairs (f : HFile) (ftList : List (String × ℚ)) (ftType : String) :
    List (String × List ℚ) :=
  f.expression.enum.filterMap (fun er =>
    if rowPass f.features ftType ftList er.2
    then some (f.samples.getD er.1 "", rowVals f.features ftList er.2) else none)

theorem all_congr_mem {l : List α} {f g : α → Bool} (h : ∀ a ∈ l, f a = g a) :
    l.all f = l.all g := by
  induction l with
  | nil => rfl
  | cons a t ih =>
    simp only [List.all_cons, h a (by simp), ih (fun b hb => h b (by simp [hb]))]

theorem searchThresholdService_eq (f : HFile) (ftList : List (String × ℚ)) (ftType : String)
    (hne : ftList ≠ []) (ht : ftType ≠ "")
    (hpres : ∀ p ∈ ftList, p.1 ∈ f.features) :
    searchThresholdService f ftList ftType =
      some { features := ftList.map Prod.fst,
             expression := dictOfPairs (thresholdPairs f ftList ftType) } := by
  have hgl : ∀ p ∈ ftList,
      dictGet (getHdf5IndicesService f.features (ftList.map Prod.fst)) p.1 =
        axisLookup f.features p.1 :=
    fun p hp => dictGet_getHdf5IndicesService (List.mem_map_of_mem _ hp)
  have hpres2 : ∀ p ∈ ftList,
      (dictGet (getHdf5IndicesService f.features (ftList.map Prod.fst)) p.1).isSome :=
    fun p hp => by rw [hgl p hp]; exact axisLookup_isSome_of_mem (hpres p hp)
  obtain ⟨q, t, rfl⟩ : ∃ q t, ftList = q :: t := by
    cases ftList with
    | nil => exact absurd rfl hne
    | cons q t => exact ⟨q, t, rfl⟩
  have hguard : (!((q :: t) : List (String × ℚ)).isEmpty && !(ftType == "")) = true := by
    simp [List.isEmpty, beq_eq_false_iff_ne, ht]
  simp only [searchThresholdService, searchFeaturesService, hguard, if_true,
    scanRows_eq hpres2 f.expression 0, Option.map_some']
  refine congrArg some (congrArg (fun e => QueryResults.mk ((q :: t).map Prod.fst) e) ?_)
  refine congrArg dictOfPairs ?_
  have henum : (List.enumFrom 0 f.expression) = f.expression.enum := rfl
  rw [henum]
  unfold thresholdPairs
  refine List.filterMap_congr ?_
  intro er _
  have hall : (q :: t).all (fun p => ftCompare ftType
      (er.2.getD ((dictGet (getHdf5IndicesService f.features ((q :: t).map Prod.fst)) p.1).getD 0) 0) p.2) =
      rowPass f.features ftType (q :: t) er.2 := by
    unfold rowPass
    refine all_congr_mem ?_
    intro p hp
    rw [hgl p hp]
  have hmap : (q :: t).map (fun p => er.2.getD
      ((dictGet (getHdf5IndicesService f.features ((q :: t).map Prod.fst)) p.1).getD 0) 0) =
      rowVals f.features (q :: t) er.2 := by
    unfold rowVals
    refine List.map_congr_left ?_
    intro p hp
    rw [hgl p hp]
  rw [hall, hmap]

section SampleSearch

theorem getD_mem_of_lt {l : List α} {i : Nat} (d : α) (h : i < l.length) :
    l.getD i d ∈ l := by
  rw [List.getD_eq_getElem?_getD, List.getElem?_eq_getElem h]
  simp

theorem getD_map_lt {l : List α} (f : α → β) {n : Nat} (h : n < l.length) (d : α) (d2 : β) :
    (l.map f).getD n d2 = f (l.getD n d) := by
  rw [List.getD_eq_getElem?_getD, List.getElem?_map, List.getElem?_eq_getElem h,
    List.getD_eq_getElem?_getD, List.getElem?_eq_getElem h]
  rfl

/-- C3: for a sample id present on the samples axis, `_search_sample` returns
one row for that sample whose value count equals the feature-axis length; for
an absent id it returns the empty results template and raises no error. -/
theorem C3_sample_search :
    ∀ (f : HFile) (s : String), wellFormed f →
      (s ∈ f.samples →
        ∃ i row, axisLookup f.samples s = some i ∧
          searchSample f s = { features := f.features, expression := [(s, row)] } ∧
          row.length = f.features.length) ∧
      (s ∉ f.samples →
        searchSample f s = { features := [], expression := [] }) := by
  intro f s hwf
  constructor
  · intro hmem
    obtain ⟨i, hi⟩ := Option.isSome_iff_exists.mp (axisLookup_isSome_of_mem hmem)
    have hget : dictGet (getHdf5IndicesService f.samples [s]) s = some i := by
      rw [dictGet_getHdf5IndicesService (by simp)]
      exact hi
    refine ⟨i, f.expression.getD i [], hi, ?_, ?_⟩
    · rw [searchSample, hget]
      rfl
    · have hlt : i < f.expression.length := by
        rw [hwf.1]
        exact axisLookup_lt_length hi
      exact hwf.2 _ (getD_mem_of_lt [] hlt)
  · intro hmem
    have hget : dictGet (getHdf5IndicesService f.samples [s]) s = none := by
      rw [dictGet_getHdf5IndicesService (by simp)]
      exact axisLookup_eq_none_of_not_mem hmem
    rw [searchSample, hget]

/-- A small concrete matrix file used by the witnesses: two samples, two
features, all rows of full width. -/
def sampleFile : HFile :=
  { samples := ["S1", "S2"],
    features := ["F1", "F2"],
    expression := [[1, 3], [5, 2]] }

/-- Witness for C3 at a present id and at an absent id. -/
theorem C3_sample_search_witness :
    (∃ i row, axisLookup sampleFile.samples "S1" = some i ∧
      searchSample sampleFile "S1" =
        { features := sampleFile.features, expression := [("S1", row)] } ∧
      row.length = sampleFile.features.length) ∧
    searchSample sampleFile "S9" = { features := [], expression := [] } :=
  ⟨(C3_sample_search sampleFile "S1" (by decide)).1 (by decide),
   (C3_sample_search sampleFile "S9" (by decide)).2 (by decide)⟩

end SampleSearch

section CandigThreshold

/-- The successive dataframe filtering of the `candig_rnaget` threshold
branch: per pair, when samples remain, select the column of the feature
inside the sliced frame (`list(indices.keys()).index(...)`, a `ValueError`
when absent) and keep the rows passing the comparator; when no samples
remain the loop breaks. -/
def dfChain (keys : List String) (cmp : ℚ → ℚ → Bool) :
    List (String × ℚ) → List (Nat × List ℚ) → Option (List (Nat × List ℚ))
  | [], rows => some rows
  | (fid, thr) :: rest, rows =>
    if rows.isEmpty then some rows
    else
      match axisLookup keys fid with
      | none => none
      | some col => dfChain keys cmp rest (rows.filter (fun r => cmp (r.2.getD col 0) thr))

/-- The feature-axis positions of the resolved (sorted) index pairs:
`feature_slices = list(indices.values())`. -/
def candigSlices (f : HFile) (idList : List String) : List Nat :=
  (getHdf5IndicesCandig f.features idList).map Prod.snd

/-- The resolved feature ids in sorted order: `list(indices.keys())`. -/
def candigKeys (f : HFile) (idList : List String) : List String :=
  (getHdf5IndicesCandig f.features idList).map Prod.fst

/-- `pd.DataFrame(expression[:, feature_slices])`: each matrix row, labelled
by its original row index, restricted to the resolved columns. -/
def candigRows (f : HFile) (idList : List String) : List (Nat × List ℚ) :=
  f.expression.enum.map (fun er => (er.1, (candigSlices f idList).map (fun c => er.2.getD c 0)))

/-- `candig_rnaget.search_threshold` with `feature_label="id"`: slice the
matrix to the resolved columns, filter samples through `dfChain`, and return
the retained sample ids (`samples[idx]` for the surviving row labels) and
the retained sliced rows (`df.values`).  An empty pair list raises
`IndexError` in `list(zip(*ft_list))[0]`; an empty comparator string is
falsy (`if ft_list and ft_type`) and routes to the plain feature-set branch,
modelled separately for the service version. -/
def searchThresholdCandig (f : HFile) (ftList : List (String × ℚ)) (ftType : String) :
    Option (List String × List (List ℚ)) :=
  match ftList with
  | [] => none
  | _ :: _ =>
    if ftType == "" then none
    else
      (dfChain (candigKeys f (ftList.map Prod.fst)) (ftCompare ftType) ftList
          (candigRows f (ftList.map Prod.fst))).map
        (fun rows => (rows.map (fun r => f.samples.getD r.1 ""), rows.map Prod.snd))

theorem dfChain_eq {keys : List String} {cmp : ℚ → ℚ → Bool} :
    ∀ {pairs : List (String × ℚ)}, (∀ p ∈ pairs, (axisLookup keys p.1).isSome) →
      ∀ (rows : List (Nat × List ℚ)),
        dfChain keys cmp pairs rows =
          some (rows.filter (fun r => pairs.all (fun p =>
            cmp (r.2.getD ((axisLookup keys p.1).getD 0) 0) p.2)))
  | [], _, rows => by simp [dfChain]
  | (fid, thr) :: rest, hpres, rows => by
    obtain ⟨col, hcol⟩ := Option.isSome_iff_exists.mp (hpres (fid, thr) (by simp))
    have hcol2 : axisLookup keys fid = some col := hcol
    have hrest : ∀ p ∈ rest, (axisLookup keys p.1).isSome :=
      fun p hp => hpres p (by simp [hp])
    rw [dfChain]
    by_cases hemp : rows.isEmpty
    · have : rows = [] := List.isEmpty_iff.mp hemp
      subst this
      simp
    · rw [if_neg hemp, hcol2]
      show dfChain keys cmp rest (rows.filter (fun r => cmp (r.2.getD col 0) thr)) = _
      rw [dfChain_eq hrest, List.filter_filter]
      refine congrArg some (List.filter_congr ?_)
      intro r _
      simp only [List.all_cons, hcol2, Option.getD_some]
      exact Bool.and_comm _ _

end CandigThreshold

theorem candig_sliced_value {f : HFile} {idList : List String} {fid : String}
    (hfidl : fid ∈ idList) (hfeat : fid ∈ f.features) (row : List ℚ) :
    (((getHdf5IndicesCandig f.features idList).map Prod.snd).map (fun c => row.getD c 0)).getD
        ((axisLookup ((getHdf5IndicesCandig f.features idList).map Prod.fst) fid).getD 0) 0 =
      row.getD ((axisLookup f.features fid).getD 0) 0 := by
  set indices := getHdf5IndicesCandig f.features idList with hidx
  obtain ⟨pos, hpos⟩ := Option.isSome_iff_exists.mp (axisLookup_isSome_of_mem hfeat)
  have hmemIdx : (fid, pos) ∈ indices := getHdf5IndicesCandig_mem.mpr ⟨hfidl, hpos⟩
  have hkeys : fid ∈ indices.map Prod.fst := List.mem_map_of_mem Prod.fst hmemIdx
  obtain ⟨j0, hj0⟩ := Option.isSome_iff_exists.mp (axisLookup_isSome_of_mem hkeys)
  have hj0lt : j0 < indices.length := by
    have := axisLookup_lt_length hj0
    simpa using this
  have hkey_at : (indices.map Prod.fst).getD j0 "" = fid := axisLookup_getD hj0
  have hq1 : (indices.getD j0 ("", 0)).1 = fid := by
    rw [← hkey_at, getD_map_lt Prod.fst hj0lt ("", 0) ""]
  have hqmem : indices.getD j0 ("", 0) ∈ indices := getD_mem_of_lt ("", 0) hj0lt
  have hqax : axisLookup f.features (indices.getD j0 ("", 0)).1 =
      some (indices.getD j0 ("", 0)).2 := (getHdf5IndicesCandig_mem.mp hqmem).2
  rw [hq1, hpos] at hqax
  have hq2 : (indices.getD j0 ("", 0)).2 = pos := by
    injection hqax.symm
  have hsliceslt : j0 < (indices.map Prod.snd).length := by simpa using hj0lt
  rw [hj0, hpos]
  simp only [Option.getD_some]
  rw [getD_map_lt (fun c => row.getD c 0) hsliceslt 0 0,
    getD_map_lt Prod.snd hj0lt ("", 0) 0, hq2]


theorem searchThresholdCandig_names (f : HFile) (ftList : List (String × ℚ)) (ftType : String)
    (hne : ftList ≠ []) (ht : ftType ≠ "")
    (hpres : ∀ p ∈ ftList, p.1 ∈ f.features) :
    ∃ vals, searchThresholdCandig f ftList ftType =
      some (((f.expression.enum.filter
          (fun er => rowPass f.features ftType ftList er.2)).map
            (fun er => f.samples.getD er.1 "")), vals) := by
  obtain ⟨q, t, rfl⟩ : ∃ q t, ftList = q :: t := by
    cases ftList with
    | nil => exact absurd rfl hne
    | cons q t => exact ⟨q, t, rfl⟩
  have hbeq : (ftType == "") = false := beq_eq_false_iff_ne.mpr ht
  have hpres2 : ∀ p ∈ q :: t,
      (axisLookup (candigKeys f ((q :: t).map Prod.fst)) p.1).isSome := by
    intro p hp
    obtain ⟨pos, hpos⟩ :=
      Option.isSome_iff_exists.mp (axisLookup_isSome_of_mem (hpres p hp))
    have hmem : (p.1, pos) ∈ getHdf5IndicesCandig f.features ((q :: t).map Prod.fst) :=
      getHdf5IndicesCandig_mem.mpr ⟨List.mem_map_of_mem Prod.fst hp, hpos⟩
    exact axisLookup_isSome_of_mem (List.mem_map_of_mem Prod.fst hmem)
  have hstep : searchThresholdCandig f (q :: t) ftType =
      some (((candigRows f ((q :: t).map Prod.fst)).filter
          (fun r => (q :: t).all (fun p => ftCompare ftType
            (r.2.getD ((axisLookup (candigKeys f ((q :: t).map Prod.fst)) p.1).getD 0) 0) p.2))).map
          (fun r => f.samples.getD r.1 ""),
        ((candigRows f ((q :: t).map Prod.fst)).filter
          (fun r => (q :: t).all (fun p => ftCompare ftType
            (r.2.getD ((axisLookup (candigKeys f ((q :: t).map Prod.fst)) p.1).getD 0) 0) p.2))).map
          Prod.snd) := by
    simp only [searchThresholdCandig, hbeq, Bool.false_eq_true, if_false,
      dfChain_eq hpres2, Option.map_some']
  have hfeq : ((fun r : Nat × List ℚ => (q :: t).all (fun p => ftCompare ftType
        (r.2.getD ((axisLookup (candigKeys f ((q :: t).map Prod.fst)) p.1).getD 0) 0) p.2)) ∘
      (fun er : Nat × List ℚ =>
        (er.1, (candigSlices f ((q :: t).map Prod.fst)).map (fun c => er.2.getD c 0)))) =
      (fun er : Nat × List ℚ => rowPass f.features ftType (q :: t) er.2) := by
    funext er
    simp only [Function.comp]
    unfold rowPass
    refine all_congr_mem ?_
    intro p hp
    exact congrArg (fun x => ftCompare ftType x p.2)
      (candig_sliced_value (List.mem_map_of_mem Prod.fst hp) (hpres p hp) er.2)
  have hnames : ((candigRows f ((q :: t).map Prod.fst)).filter
      (fun r => (q :: t).all (fun p => ftCompare ftType
        (r.2.getD ((axisLookup (candigKeys f ((q :: t).map Prod.fst)) p.1).getD 0) 0) p.2))).map
      (fun r => f.samples.getD r.1 "") =
      (f.expression.enum.filter
        (fun er => rowPass f.features ftType (q :: t) er.2)).map
        (fun er => f.samples.getD er.1 "") := by
    unfold candigRows
    rw [List.filter_map, hfeq, List.map_map]
    rfl
  exact ⟨_, by rw [hstep, hnames]⟩

section ClaimOne

theorem all_perm {l l₂ : List α} {p : α → Bool} (h : l₂.Perm l) : l₂.all p = l.all p := by
  rw [Bool.eq_iff_iff, List.all_eq_true, List.all_eq_true]
  exact ⟨fun hh x hx => hh x (h.mem_iff.mpr hx), fun hh x hx => hh x (h.mem_iff.mp hx)⟩

theorem rowPass_perm {feats : List String} {t : String} {l l₂ : List (String × ℚ)}
    {row : List ℚ} (h : l₂.Perm l) :
    rowPass feats t l₂ row = rowPass feats t l row := by
  unfold rowPass
  exact all_perm h

theorem mem_thresholdPairs_keys {f : HFile} {ftList : List (String × ℚ)}
    {ftType : String} {s : String} :
    s ∈ (thresholdPairs f ftList ftType).map Prod.fst ↔
      ∃ er ∈ f.expression.enum,
        rowPass f.features ftType ftList er.2 = true ∧ f.samples.getD er.1 "" = s := by
  unfold thresholdPairs
  rw [List.map_filterMap]
  constructor
  · intro h
    obtain ⟨er, hermem, hg⟩ := List.mem_filterMap.mp h
    by_cases hpass : rowPass f.features ftType ftList er.2
    · rw [if_pos hpass] at hg
      exact ⟨er, hermem, hpass, by simpa using hg⟩
    · rw [if_neg hpass] at hg
      simp at hg
  · rintro ⟨er, hermem, hpass, hname⟩
    refine List.mem_filterMap.mpr ⟨er, hermem, ?_⟩
    rw [if_pos hpass]
    simpa using hname

theorem mem_enum_getD {l : List (List ℚ)} {er : Nat × List ℚ} :
    er ∈ l.enum ↔ er.1 < l.length ∧ l.getD er.1 [] = er.2 := by
  rw [List.mem_enum_iff_getElem?]
  constructor
  · intro h
    have hlt : er.1 < l.length := by
      by_contra hge
      rw [List.getElem?_eq_none (Nat.le_of_not_lt hge)] at h
      exact absurd h (by simp)
    refine ⟨hlt, ?_⟩
    rw [List.getD_eq_getElem?_getD, h]
    rfl
  · rintro ⟨hlt, hval⟩
    rw [List.getElem?_eq_getElem hlt]
    rw [List.getD_eq_getElem?_getD, List.getElem?_eq_getElem hlt] at hval
    simpa using hval

/-- C1: with every listed feature present on the axis and a non-empty pair
list, the threshold search succeeds; with the `min` comparator a sample id is
a key of the results exactly when some row with that id has, for every
(feature, threshold) pair, a value strictly greater than the threshold; with
the `max` comparator, a value less than or equal to the threshold; permuting
the pair list leaves the whole ordered key list unchanged (evaluation
short-circuits but inclusion is order-independent), and the `candig_rnaget`
dataframe implementation retains exactly the same sample-id set. -/
theorem C1_threshold_inclusion :
    ∀ (f : HFile) (ftList : List (String × ℚ)) (ftType : String),
      wellFormed f → ftList ≠ [] → (ftType = "min" ∨ ftType = "max") →
      (∀ p ∈ ftList, p.1 ∈ f.features) →
      ∃ res : QueryResults,
        searchThresholdService f ftList ftType = some res ∧
        (ftType = "min" → ∀ s : String,
          (hasKey res.expression s = true ↔
            ∃ i, i < f.expression.length ∧ f.samples.getD i "" = s ∧
              ∀ p ∈ ftList, exprVal f i p.1 > p.2)) ∧
        (ftType = "max" → ∀ s : String,
          (hasKey res.expression s = true ↔
            ∃ i, i < f.expression.length ∧ f.samples.getD i "" = s ∧
              ∀ p ∈ ftList, exprVal f i p.1 ≤ p.2)) ∧
        (∀ ftList₂, ftList₂.Perm ftList →
          ∃ res₂ : QueryResults, searchThresholdService f ftList₂ ftType = some res₂ ∧
            res₂.expression.map Prod.fst = res.expression.map Prod.fst) ∧
        (∃ names vals, searchThresholdCandig f ftList ftType = some (names, vals) ∧
          ∀ s : String, (s ∈ names ↔ hasKey res.expression s = true)) := by
  intro f ftList ftType hwf hne htype hpres
  have ht : ftType ≠ "" := by
    rcases htype with h | h <;> subst h <;> decide
  have hmain := searchThresholdService_eq f ftList ftType hne ht hpres
  refine ⟨_, hmain, ?_, ?_, ?_, ?_⟩
  · intro htmin s
    subst htmin
    show hasKey (dictOfPairs (thresholdPairs f ftList "min")) s = true ↔ _
    rw [dictOfPairs_hasKey, mem_thresholdPairs_keys]
    constructor
    · rintro ⟨er, hermem, hpass, hname⟩
      obtain ⟨hlt, hval⟩ := mem_enum_getD.mp hermem
      refine ⟨er.1, hlt, hname, ?_⟩
      intro p hp
      have := List.all_eq_true.mp hpass p hp
      rw [← hval] at this
      simpa [ftCompare, exprVal] using this
    · rintro ⟨i, hlt, hname, hvals⟩
      refine ⟨(i, f.expression.getD i []), mem_enum_getD.mpr ⟨hlt, rfl⟩, ?_, hname⟩
      unfold rowPass
      rw [List.all_eq_true]
      intro p hp
      simpa [ftCompare, exprVal] using hvals p hp
  · intro htmax s
    subst htmax
    show hasKey (dictOfPairs (thresholdPairs f ftList "max")) s = true ↔ _
    rw [dictOfPairs_hasKey, mem_thresholdPairs_keys]
    have hb : ("max" == "min") = false := by decide
    constructor
    · rintro ⟨er, hermem, hpass, hname⟩
      obtain ⟨hlt, hval⟩ := mem_enum_getD.mp hermem
      refine ⟨er.1, hlt, hname, ?_⟩
      intro p hp
      have := List.all_eq_true.mp hpass p hp
      rw [← hval] at this
      simpa [ftCompare, hb, exprVal] using this
    · rintro ⟨i, hlt, hname, hvals⟩
      refine ⟨(i, f.expression.getD i []), mem_enum_getD.mpr ⟨hlt, rfl⟩, ?_, hname⟩
      unfold rowPass
      rw [List.all_eq_true]
      intro p hp
      simpa [ftCompare, hb, exprVal] using hvals p hp
  · intro ftList₂ hperm
    have hne2 : ftList₂ ≠ [] := by
      intro h
      subst h
      exact hne hperm.symm.eq_nil
    have hpres2 : ∀ p ∈ ftList₂, p.1 ∈ f.features := fun p hp => hpres p (hperm.subset hp)
    refine ⟨_, searchThresholdService_eq f ftList₂ ftType hne2 ht hpres2, ?_⟩
    show (dictOfPairs (thresholdPairs f ftList₂ ftType)).map Prod.fst =
      (dictOfPairs (thresholdPairs f ftList ftType)).map Prod.fst
    refine dictOfPairs_keys_congr ?_
    unfold thresholdPairs
    rw [List.map_filterMap, List.map_filterMap]
    refine List.filterMap_congr ?_
    intro er _
    rw [apply_ite (Option.map Prod.fst), apply_ite (Option.map Prod.fst),
      rowPass_perm hperm]
    rfl
  · obtain ⟨vals, hcd⟩ := searchThresholdCandig_names f ftList ftType hne ht hpres
    refine ⟨_, vals, hcd, ?_⟩
    intro s
    show _ ↔ hasKey (dictOfPairs (thresholdPairs f ftList ftType)) s = true
    rw [dictOfPairs_hasKey, mem_thresholdPairs_keys]
    constructor
    · intro h
      obtain ⟨er, hermem, hname⟩ := List.mem_map.mp h
      obtain ⟨henum, hpass⟩ := List.mem_filter.mp hermem
      exact ⟨er, henum, hpass, hname⟩
    · rintro ⟨er, henum, hpass, hname⟩
      exact List.mem_map.mpr ⟨er, List.mem_filter.mpr ⟨henum, hpass⟩, hname⟩

end ClaimOne

/-- Witness for C1: the spec's concrete scenario (threshold 0.2 on feature
F1 (scaled to integers) with the min comparator over the 2-by-2 sample
matrix). -/
theorem C1_threshold_inclusion_witness :
    ∃ res : QueryResults,
      searchThresholdService sampleFile [("F1", 2)] "min" = some res ∧
      (hasKey res.expression "S2" = true ↔
        ∃ i, i < sampleFile.expression.length ∧ sampleFile.samples.getD i "" = "S2" ∧
          ∀ p ∈ [("F1", (2 : ℚ))], exprVal sampleFile i p.1 > p.2) := by
  obtain ⟨res, h1, h2, _, _, _⟩ := C1_threshold_inclusion sampleFile [("F1", 2)] "min"
    (by decide) (by decide) (Or.inl rfl) (by decide)
  exact ⟨res, h1, h2 rfl "S2"⟩

section ClaimFour

theorem dictOfPairs_length_le {l : List (String × α)} {l₂ : List (String × β)}
    (h : ∀ s, s ∈ l.map Prod.fst → s ∈ l₂.map Prod.fst) :
    (dictOfPairs l).length ≤ (dictOfPairs l₂).length := by
  have h1 : (dictOfPairs l).map Prod.fst ⊆ (dictOfPairs l₂).map Prod.fst := by
    intro s hs
    exact dictOfPairs_mem_keys.mpr (h s (dictOfPairs_mem_keys.mp hs))
  have hsub := ((dictOfPairs_keys_nodup (l := l)).subperm h1).length_le
  simpa using hsub

theorem rowPass_min_mono {feats : List String} {l1 l2 : List (String × ℚ)}
    {fid : String} {t tp : ℚ} (hle : t ≤ tp) (row : List ℚ)
    (h : rowPass feats "min" (l1 ++ (fid, tp) :: l2) row = true) :
    rowPass feats "min" (l1 ++ (fid, t) :: l2) row = true := by
  unfold rowPass at *
  rw [List.all_eq_true] at *
  intro p hp
  rcases List.mem_append.mp hp with hp1 | hp1
  · exact h p (List.mem_append_left _ hp1)
  · rcases List.mem_cons.mp hp1 with hp2 | hp2
    · subst hp2
      have := h (fid, tp) (List.mem_append_right _ (List.mem_cons_self _ _))
      simp only [ftCompare, beq_self_eq_true, if_true, decide_eq_true_iff] at this ⊢
      exact lt_of_le_of_lt hle this
    · exact h p (List.mem_append_right _ (List.mem_cons_of_mem _ hp2))

theorem rowPass_max_mono {feats : List String} {l1 l2 : List (String × ℚ)}
    {fid : String} {t tp : ℚ} (hle : tp ≤ t) (row : List ℚ)
    (h : rowPass feats "max" (l1 ++ (fid, tp) :: l2) row = true) :
    rowPass feats "max" (l1 ++ (fid, t) :: l2) row = true := by
  have hb : ("max" == "min") = false := by decide
  unfold rowPass at *
  rw [List.all_eq_true] at *
  intro p hp
  rcases List.mem_append.mp hp with hp1 | hp1
  · exact h p (List.mem_append_left _ hp1)
  · rcases List.mem_cons.mp hp1 with hp2 | hp2
    · subst hp2
      have := h (fid, tp) (List.mem_append_right _ (List.mem_cons_self _ _))
      simp only [ftCompare, hb, Bool.false_eq_true, if_false, decide_eq_true_iff] at this ⊢
      exact le_trans this hle
    · exact h p (List.mem_append_right _ (List.mem_cons_of_mem _ hp2))

end ClaimFour

/-- C4: for a fixed matrix and pair list, raising the threshold of any one
pair in a `min` query never increases the number of included samples, and
lowering the threshold of any one pair in a `max` query never increases it;
shown both for the sample-id dict of the `rnaget_service` results and for
the retained sample list of the `candig_rnaget` dataframe filter. -/
theorem C4_threshold_monotonicity :
    ∀ (f : HFile) (l1 l2 : List (String × ℚ)) (fid : String) (t tp : ℚ),
      wellFormed f →
      (∀ p ∈ l1, p.1 ∈ f.features) → fid ∈ f.features → (∀ p ∈ l2, p.1 ∈ f.features) →
      (t ≤ tp →
        ∃ res res₂ names vals names₂ vals₂,
          searchThresholdService f (l1 ++ (fid, t) :: l2) "min" = some res ∧
          searchThresholdService f (l1 ++ (fid, tp) :: l2) "min" = some res₂ ∧
          res₂.expression.length ≤ res.expression.length ∧
          searchThresholdCandig f (l1 ++ (fid, t) :: l2) "min" = some (names, vals) ∧
          searchThresholdCandig f (l1 ++ (fid, tp) :: l2) "min" = some (names₂, vals₂) ∧
          names₂.length ≤ names.length) ∧
      (tp ≤ t →
        ∃ res res₂ names vals names₂ vals₂,
          searchThresholdService f (l1 ++ (fid, t) :: l2) "max" = some res ∧
          searchThresholdService f (l1 ++ (fid, tp) :: l2) "max" = some res₂ ∧
          res₂.expression.length ≤ res.expression.length ∧
          searchThresholdCandig f (l1 ++ (fid, t) :: l2) "max" = some (names, vals) ∧
          searchThresholdCandig f (l1 ++ (fid, tp) :: l2) "max" = some (names₂, vals₂) ∧
          names₂.length ≤ names.length) := by
  intro f l1 l2 fid t tp hwf h1 hf h2
  have hneA : (l1 ++ (fid, t) :: l2) ≠ [] := by simp
  have hneB : (l1 ++ (fid, tp) :: l2) ≠ [] := by simp
  have hpA : ∀ p ∈ l1 ++ (fid, t) :: l2, p.1 ∈ f.features := by
    intro p hp
    rcases List.mem_append.mp hp with h | h
    · exact h1 p h
    · rcases List.mem_cons.mp h with h | h
      · rw [h]
        exact hf
      · exact h2 p h
  have hpB : ∀ p ∈ l1 ++ (fid, tp) :: l2, p.1 ∈ f.features := by
    intro p hp
    rcases List.mem_append.mp hp with h | h
    · exact h1 p h
    · rcases List.mem_cons.mp h with h | h
      · rw [h]
        exact hf
      · exact h2 p h
  constructor
  · intro hle
    obtain ⟨valsA, hcA⟩ :=
      searchThresholdCandig_names f (l1 ++ (fid, t) :: l2) "min" hneA (by decide) hpA
    obtain ⟨valsB, hcB⟩ :=
      searchThresholdCandig_names f (l1 ++ (fid, tp) :: l2) "min" hneB (by decide) hpB
    refine ⟨_, _, _, valsA, _, valsB,
      searchThresholdService_eq f (l1 ++ (fid, t) :: l2) "min" hneA (by decide) hpA,
      searchThresholdService_eq f (l1 ++ (fid, tp) :: l2) "min" hneB (by decide) hpB,
      ?_, hcA, hcB, ?_⟩
    · refine dictOfPairs_length_le ?_
      intro s hs
      rw [mem_thresholdPairs_keys] at hs ⊢
      obtain ⟨er, henum, hpass, hname⟩ := hs
      exact ⟨er, henum, rowPass_min_mono hle er.2 hpass, hname⟩
    · rw [List.length_map, List.length_map]
      exact (List.monotone_filter_right _
        (fun er h => rowPass_min_mono hle er.2 h)).length_le
  · intro hle
    obtain ⟨valsA, hcA⟩ :=
      searchThresholdCandig_names f (l1 ++ (fid, t) :: l2) "max" hneA (by decide) hpA
    obtain ⟨valsB, hcB⟩ :=
      searchThresholdCandig_names f (l1 ++ (fid, tp) :: l2) "max" hneB (by decide) hpB
    refine ⟨_, _, _, valsA, _, valsB,
      searchThresholdService_eq f (l1 ++ (fid, t) :: l2) "max" hneA (by decide) hpA,
      searchThresholdService_eq f (l1 ++ (fid, tp) :: l2) "max" hneB (by decide) hpB,
      ?_, hcA, hcB, ?_⟩
    · refine dictOfPairs_length_le ?_
      intro s hs
      rw [mem_thresholdPairs_keys] at hs ⊢
      obtain ⟨er, henum, hpass, hname⟩ := hs
      exact ⟨er, henum, rowPass_max_mono hle er.2 hpass, hname⟩
    · rw [List.length_map, List.length_map]
      exact (List.monotone_filter_right _
        (fun er h => rowPass_max_mono hle er.2 h)).length_le

/-- Witness for C4 at the concrete 2-by-2 matrix, raising the F1 min
threshold from 2 to 3. -/
theorem C4_threshold_monotonicity_witness :
    ∃ res res₂ names vals names₂ vals₂,
      searchThresholdService sampleFile ([] ++ ("F1", 2) :: []) "min" = some res ∧
      searchThresholdService sampleFile ([] ++ ("F1", 3) :: []) "min" = some res₂ ∧
      res₂.expression.length ≤ res.expression.length ∧
      searchThresholdCandig sampleFile ([] ++ ("F1", 2) :: []) "min" = some (names, vals) ∧
      searchThresholdCandig sampleFile ([] ++ ("F1", 3) :: []) "min" = some (names₂, vals₂) ∧
      names₂.length ≤ names.length :=
  (C4_threshold_monotonicity sampleFile [] [] "F1" 2 3
    (by decide) (by decide) (by decide) (by decide)).1 (by decide)

section ClaimTen

/-- C10 counterexample: the empty comparator string differs from "min", yet
the query does not behave like "max": the Python truthiness guard
`if ft_list and ft_type` is false for the empty string, so the threshold
filter is skipped entirely and every sample is returned. -/
theorem C10_counterexample :
    "" ≠ "min" ∧
      searchThresholdService sampleFile [("F1", 2)] "" ≠
        searchThresholdService sampleFile [("F1", 2)] "max" :=
  ⟨by decide, by decide⟩

/-- C10 (amended): for every comparator tag other than the exact string
"min" and other than the empty string, both implementations silently apply
the max-comparator semantics, with no validation error: the results equal
the ones for "max".  (The empty string instead disables the threshold branch
via Python truthiness.) -/
theorem C10_comparator_defaults_to_max :
    ∀ (f : HFile) (ftList : List (String × ℚ)) (ty : String),
      ty ≠ "min" → ty ≠ "" →
      searchThresholdService f ftList ty = searchThresholdService f ftList "max" ∧
      searchThresholdCandig f ftList ty = searchThresholdCandig f ftList "max" := by
  intro f ftl ty hmin hemp
  have h1 : (ty == "min") = false := beq_eq_false_iff_ne.mpr hmin
  have h1b : ("max" == "min") = false := by decide
  have hcmp : ftCompare ty = ftCompare "max" := by
    funext x y
    simp [ftCompare, h1, h1b]
  have g1 : (ty == "") = false := beq_eq_false_iff_ne.mpr hemp
  have g2 : ("max" == "") = false := by decide
  constructor
  · cases ftl with
    | nil => rfl
    | cons q rest =>
      simp only [searchThresholdService, searchFeaturesService, g1, g2, hcmp,
        Bool.not_false, Bool.and_true]
  · cases ftl with
    | nil => rfl
    | cons q rest =>
      simp only [searchThresholdCandig, g1, g2, hcmp, Bool.false_eq_true, if_false]

/-- Witness for C10 at the unrecognized comparator tag "banana". -/
theorem C10_comparator_defaults_to_max_witness :
    searchThresholdService sampleFile [("F1", 2)] "banana" =
        searchThresholdService sampleFile [("F1", 2)] "max" ∧
      searchThresholdCandig sampleFile [("F1", 2)] "banana" =
        searchThresholdCandig sampleFile [("F1", 2)] "max" :=
  C10_comparator_defaults_to_max sampleFile [("F1", 2)] "banana" (by decide) (by decide)

end ClaimTen

section ResultWriter

/-- The stored content of a results file written by `_write_hdf5_results`.
Axis datasets are created with the fixed-width 20-byte string dtype `S20`,
so numpy silently truncates each identifier to its first 20 bytes when
assigning; the expression dataset has dtype `f8` and receives the value
matrix unchanged (an exact copy for finite 64-bit floats, modelled by ℚ).
Re-opening the file reads the datasets back exactly as stored. -/
structure H5Output where
  samples : List Bytes
  features : List Bytes
  expression : List (List ℚ)
deriving DecidableEq

/-- `_write_hdf5_results` (without the optional supplementary label column
and metadata): store the encoded sample and feature ids in `S20` slots and
the expressions in the `f8` matrix. -/
def writeHdf5Results (sampleList featureList : List Bytes)
    (expressions : List (List ℚ)) : H5Output :=
  { features := featureList.map (fun b => b.take 20),
    samples := sampleList.map (fun b => b.take 20),
    expression := expressions }

/-- C5 counterexample: a 21-byte sample identifier is truncated by the
`S20`-typed dataset, so re-opening the written file does not reproduce it. -/
theorem C5_counterexample :
    (writeHdf5Results [List.replicate 21 (65 : UInt8)] [] []).samples ≠
      [List.replicate 21 (65 : UInt8)] := by
  decide

/-- C5 (amended): re-opening a written binary-matrix results file reproduces
the expression values exactly (64-bit floats are copied verbatim), and
reproduces the sample and feature identifiers exactly whenever every
identifier is at most 20 bytes long; longer identifiers are silently
truncated to their first 20 bytes by the fixed-width `S20` slots. -/
theorem C5_roundtrip :
    ∀ (sampleList featureList : List Bytes) (expressions : List (List ℚ)),
      (writeHdf5Results sampleList featureList expressions).expression = expressions ∧
      ((∀ b ∈ sampleList, b.length ≤ 20) →
        (writeHdf5Results sampleList featureList expressions).samples = sampleList) ∧
      ((∀ b ∈ featureList, b.length ≤ 20) →
        (writeHdf5Results sampleList featureList expressions).features = featureList) := by
  intro sampleList featureList expressions
  refine ⟨rfl, ?_, ?_⟩
  · intro h
    show sampleList.map (fun b => b.take 20) = sampleList
    rw [List.map_congr_left (fun b hb => List.take_of_length_le (h b hb))]
    exact List.map_id _
  · intro h
    show featureList.map (fun b => b.take 20) = featureList
    rw [List.map_congr_left (fun b hb => List.take_of_length_le (h b hb))]
    exact List.map_id _

/-- Witness for C5 with short identifiers. -/
theorem C5_roundtrip_witness :
    (writeHdf5Results [[83, 49]] [[70, 49]] [[2]]).expression = [[2]] ∧
      (writeHdf5Results [[83, 49]] [[70, 49]] [[2]]).samples = [[83, 49]] ∧
      (writeHdf5Results [[83, 49]] [[70, 49]] [[2]]).features = [[70, 49]] :=
  ⟨(C5_roundtrip [[83, 49]] [[70, 49]] [[2]]).1,
   (C5_roundtrip [[83, 49]] [[70, 49]] [[2]]).2.1 (by decide),
   (C5_roundtrip [[83, 49]] [[70, 49]] [[2]]).2.2 (by decide)⟩

end ResultWriter

section ThresholdParsing

/-- Errors raised by the engine and its API glue, under the spec's names. -/
inductive QueryError where
  | invalidArgument
  | unsupportedOutputFormat
  | thresholdValueError
deriving DecidableEq

/-- A raw query-parameter token together with the outcome of Python
`float(token)`: `some v` when the text parses as a number, `none` when
`float` raises `ValueError`. -/
structure Tok where
  raw : String
  asFloat : Option ℚ
deriving DecidableEq

/-- The loop of `convert_threshold_array` over `range(len(input) // 2)`:
pair up `input[2 i]` with `float(input[2 i + 1])`, raising
`ThresholdValueError` (the spec's `MalformedThresholdInput`) on the first
value that fails to parse. -/
def convertLoop (input : List Tok) : List Nat → Except QueryError (List (String × ℚ))
  | [] => Except.ok []
  | i :: rest =>
    match (input.getD (2 * i + 1) ⟨"", none⟩).asFloat with
    | none => Except.error QueryError.thresholdValueError
    | some v =>
      match convertLoop input rest with
      | Except.error e => Except.error e
      | Except.ok tl => Except.ok (((input.getD (2 * i) ⟨"", none⟩).raw, v) :: tl)

/-- `convert_threshold_array` for the array input format: an odd trailing
element is never visited because the loop runs `len(input) // 2` times. -/
def convertThresholdArray (input : List Tok) : Except QueryError (List (String × ℚ)) :=
  convertLoop input (List.range (input.length / 2))

/-- C6 counterexample: an odd-length threshold array whose scanned value
slot is numeric parses without any error, silently dropping the trailing
element, where the claim requires `MalformedThresholdInput` to be raised. -/
theorem C6_counterexample :
    ([Tok.mk "F1" none, Tok.mk "2" (some 2), Tok.mk "F2" none].length % 2 = 1) ∧
      convertThresholdArray [Tok.mk "F1" none, Tok.mk "2" (some 2), Tok.mk "F2" none] =
        Except.ok [("F1", 2)] := by
  constructor
  · rfl
  · rfl

theorem convertLoop_error {input : List Tok} :
    ∀ {idxs : List Nat}, (∃ i ∈ idxs, (input.getD (2 * i + 1) ⟨"", none⟩).asFloat = none) →
      convertLoop input idxs = Except.error QueryError.thresholdValueError
  | [], h => by simp at h
  | i :: rest, h => by
    rw [convertLoop]
    cases hf : (input.getD (2 * i + 1) ⟨"", none⟩).asFloat with
    | none => rfl
    | some v =>
      obtain ⟨j, hj, hjf⟩ := h
      rcases List.mem_cons.mp hj with hj | hj
      · rw [hj] at hjf
        rw [hjf] at hf
        exact absurd hf (by simp)
      · rw [convertLoop_error ⟨j, hj, hjf⟩]

theorem convertLoop_ok {input : List Tok} :
    ∀ {idxs : List Nat}, (∀ i ∈ idxs, (input.getD (2 * i + 1) ⟨"", none⟩).asFloat ≠ none) →
      convertLoop input idxs = Except.ok (idxs.map (fun i =>
        ((input.getD (2 * i) ⟨"", none⟩).raw,
          (input.getD (2 * i + 1) ⟨"", none⟩).asFloat.getD 0)))
  | [], _ => rfl
  | i :: rest, h => by
    rw [convertLoop]
    cases hf : (input.getD (2 * i + 1) ⟨"", none⟩).asFloat with
    | none => exact absurd hf (h i (by simp))
    | some v =>
      rw [convertLoop_ok (fun j hj => h j (by simp [hj]))]
      simp only [List.map_cons, hf, Option.getD_some]

/-- C6 (amended): `convert_threshold_array` raises `MalformedThresholdInput`
exactly when one of the scanned value slots (positions 2 i + 1 for
i < len / 2) is not numeric; every other array parses without error into
the list of (feature, value) pairs, and in particular an odd-length array
does not raise: its trailing element is silently ignored. -/
theorem C6_threshold_parse :
    ∀ (input : List Tok),
      ((∃ i, i < input.length / 2 ∧ (input.getD (2 * i + 1) ⟨"", none⟩).asFloat = none) →
        convertThresholdArray input = Except.error QueryError.thresholdValueError) ∧
      ((∀ i, i < input.length / 2 → (input.getD (2 * i + 1) ⟨"", none⟩).asFloat ≠ none) →
        convertThresholdArray input = Except.ok ((List.range (input.length / 2)).map (fun i =>
          ((input.getD (2 * i) ⟨"", none⟩).raw,
            (input.getD (2 * i + 1) ⟨"", none⟩).asFloat.getD 0)))) := by
  intro input
  constructor
  · rintro ⟨i, hi, hf⟩
    exact convertLoop_error ⟨i, List.mem_range.mpr hi, hf⟩
  · intro h
    exact convertLoop_ok (fun i hi => h i (List.mem_range.mp hi))

/-- Witness for C6: the spec's concrete scenario `["F1", "not-a-number"]`
raises, and a well-formed even-length array parses. -/
theorem C6_threshold_parse_witness :
    convertThresholdArray [Tok.mk "F1" none, Tok.mk "not-a-number" none] =
        Except.error QueryError.thresholdValueError ∧
      convertThresholdArray [Tok.mk "F1" none, Tok.mk "2" (some 2)] =
        Except.ok [("F1", 2)] :=
  ⟨(C6_threshold_parse [Tok.mk "F1" none, Tok.mk "not-a-number" none]).1
      ⟨0, by decide, rfl⟩,
   ((C6_threshold_parse [Tok.mk "F1" none, Tok.mk "2" (some 2)]).2
      (by decide)).trans (by rfl)⟩

end ThresholdParsing

section OutputFormat

/-- File-system effects observable from the query tool. -/
inductive IOEvent where
  | openInput
  | createOutput
deriving DecidableEq

def SUPPORTED_OUTPUT_FORMATS : List String := [".json", ".h5"]

/-- The observable behaviour of `ExpressionQueryTool.__init__`: the input
matrix file is opened for reading first (`h5py.File(input_file, "r")` is
the first statement), and only then is the requested output format checked
against `SUPPORTED_OUTPUT_FORMATS`, raising `ValueError` (the spec's
`UnsupportedOutputFormat`) for any other value.  The constructor never
creates an output file: the `.h5` results file is created later, by
`_build_results_template`. -/
def queryToolInit (outputType : String) : List IOEvent × Option QueryError :=
  ([IOEvent.openInput],
   if SUPPORTED_OUTPUT_FORMATS.contains outputType then none
   else some QueryError.unsupportedOutputFormat)

/-- `_build_results_template`: the output file is created only here, and
only for the `.h5` output format. -/
def buildResultsTemplateEvents (outputFormat : String) : List IOEvent :=
  if outputFormat == ".h5" then [IOEvent.createOutput] else []

/-- C7 counterexample: requesting the unsupported format ".xml" does raise
`UnsupportedOutputFormat`, but not before all file I/O: the input file has
already been opened for reading when the check runs. -/
theorem C7_counterexample :
    (queryToolInit ".xml").2 = some QueryError.unsupportedOutputFormat ∧
      (queryToolInit ".xml").1 ≠ [] := by
  constructor
  · rfl
  · decide

/-- C7 (amended): every output format outside the supported set is rejected
with `UnsupportedOutputFormat` during construction, before any output file
is created and before any output I/O (though after the input matrix file
has been opened for reading); for the supported formats no such error is
raised. -/
theorem C7_unsupported_format :
    (∀ ty, ty ∉ SUPPORTED_OUTPUT_FORMATS →
      (queryToolInit ty).2 = some QueryError.unsupportedOutputFormat ∧
        IOEvent.createOutput ∉ (queryToolInit ty).1) ∧
    (∀ ty ∈ SUPPORTED_OUTPUT_FORMATS, (queryToolInit ty).2 = none) := by
  constructor
  · intro ty hty
    have hc : SUPPORTED_OUTPUT_FORMATS.contains ty = false := by simpa using hty
    constructor
    · show (if SUPPORTED_OUTPUT_FORMATS.contains ty then none
        else some QueryError.unsupportedOutputFormat) = _
      rw [hc]
      rfl
    · show IOEvent.createOutput ∉ [IOEvent.openInput]
      simp
  · intro ty hty
    have hc : SUPPORTED_OUTPUT_FORMATS.contains ty = true := by simpa using hty
    show (if SUPPORTED_OUTPUT_FORMATS.contains ty then none
      else some QueryError.unsupportedOutputFormat) = _
    rw [hc]
    rfl

/-- Witness for C7 at ".xml" (rejected) and ".h5" (accepted). -/
theorem C7_unsupported_format_witness :
    ((queryToolInit ".xml").2 = some QueryError.unsupportedOutputFormat ∧
      IOEvent.createOutput ∉ (queryToolInit ".xml").1) ∧
    (queryToolInit ".h5").2 = none :=
  ⟨C7_unsupported_format.1 ".xml" (by decide),
   C7_unsupported_format.2 ".h5" (by decide)⟩

end OutputFormat

section SearchValidation

/-- Python truthiness of an optional string parameter: absent (`None`) and
the empty string are both falsy. -/
def truthyStr : Option String → Bool
  | none => false
  | some s => !s.isEmpty

/-- One row of the feature-mapping `.tsv` consumed through pandas. -/
structure FeatureMapRow where
  ensemblId : String
  geneSymbol : String
  accessionNumbers : String

/-- `df.loc[df[key] == value].ensembl_id` with the first match taken
(`values[0]`); values without a match are dropped, not errored. -/
def resolveFeatures (fmap : List FeatureMapRow) (key : FeatureMapRow → String)
    (vals : List String) : List String :=
  vals.filterMap (fun v => (fmap.find? (fun r => key r == v)).map (·.ensemblId))

/-- The plain feature-set branch of `candig_rnaget._search_features`
(`.json`, no metadata): resolved features in sorted order, rows sliced to
the resolved columns, and the `dict(zip(samples, zip(*rows)))` staging (the
transpose keeps the candig `.json` path as written). -/
def searchFeaturesCandigPlain (f : HFile) (featureList : List String) : QueryResults :=
  let indices := getHdf5IndicesCandig f.features featureList
  let slices := indices.map Prod.snd
  let rowsSliced := f.expression.map (fun row => slices.map (fun c => row.getD c 0))
  { features := indices.map Prod.fst,
    expression :=
      if !rowsSliced.isEmpty then dictOfPairs (f.samples.zip (pyZip rowsSliced))
      else dictOfPairs (f.samples.zip ([] : List (List ℚ))) }

/-- The dispatch at the end of `candig_rnaget.search`: sample id plus a
non-empty resolved feature list selects the intersection branch; a sample
id alone selects `_search_sample`; a feature list alone selects
`_search_features`; nothing at all raises `ValueError`
(`InvalidArgument`). -/
def searchDispatchCandig (f : HFile) (sampleId : Option String)
    (featureListId : List String) : Except QueryError QueryResults :=
  if truthyStr sampleId && !featureListId.isEmpty then
    match dictGet (getHdf5IndicesService f.samples [sampleId.getD ""]) (sampleId.getD "") with
    | none => Except.ok { features := [], expression := [] }
    | some i =>
      Except.ok { features := (getHdf5IndicesCandig f.features featureListId).map Prod.fst,
                  expression := dictInsert [] (sampleId.getD "")
                    ((getHdf5IndicesCandig f.features featureListId).map
                      (fun p => (f.expression.getD i []).getD p.2 0)) }
  else if truthyStr sampleId then Except.ok (searchSample f (sampleId.getD ""))
  else if !featureListId.isEmpty then Except.ok (searchFeaturesCandigPlain f featureListId)
  else Except.error QueryError.invalidArgument

/-- `candig_rnaget.ExpressionQueryTool.search` (`.json`, no metadata):
validates the argument combination, resolves a name or accession list to
canonical ids through the feature map, and dispatches. -/
def searchCandig (f : HFile) (fmap : List FeatureMapRow) (sampleId : Option String)
    (featureListId featureListAccession featureListName : List String) :
    Except QueryError QueryResults :=
  if !featureListAccession.isEmpty || !featureListName.isEmpty then
    if !featureListId.isEmpty || (!featureListAccession.isEmpty && !featureListName.isEmpty) then
      Except.error QueryError.invalidArgument
    else
      searchDispatchCandig f sampleId
        (if !featureListName.isEmpty then
          resolveFeatures fmap (fun r => r.geneSymbol) featureListName
        else resolveFeatures fmap (fun r => r.accessionNumbers) featureListAccession)
  else searchDispatchCandig f sampleId featureListId

theorem searchDispatchCandig_ok_of_sample {f : HFile} {sid : Option String}
    (hs : truthyStr sid = true) (l : List String) :
    ∃ r, searchDispatchCandig f sid l = Except.ok r := by
  cases hl : l.isEmpty with
  | true =>
    have hleq : l = [] := List.isEmpty_iff.mp hl
    subst hleq
    exact ⟨searchSample f (sid.getD ""), by simp [searchDispatchCandig, hs]⟩
  | false =>
    have h1 : (truthyStr sid && !l.isEmpty) = true := by rw [hs, hl]; rfl
    unfold searchDispatchCandig
    rw [if_pos h1]
    cases dictGet (getHdf5IndicesService f.samples [sid.getD ""]) (sid.getD "") with
    | none => exact ⟨_, rfl⟩
    | some j => exact ⟨_, rfl⟩

/-- C8: `search` raises `InvalidArgument` when more than one feature
namespace is supplied (id together with name or accession, or name together
with accession) and when no argument at all is supplied; a sample id
together with exactly one feature-id list is not an error and yields the
1-by-k intersected sub-matrix in resolved (ascending-position) order; a
sample id with exactly a name list or exactly an accession list is not an
error either. -/
theorem C8_search_argument_validation :
    ∀ (f : HFile) (fmap : List FeatureMapRow) (sid : Option String)
      (fid facc fname : List String),
      ((facc ≠ [] ∨ fname ≠ []) → (fid ≠ [] ∨ (facc ≠ [] ∧ fname ≠ [])) →
        searchCandig f fmap sid fid facc fname = Except.error QueryError.invalidArgument) ∧
      (truthyStr sid = false → fid = [] → facc = [] → fname = [] →
        searchCandig f fmap sid fid facc fname = Except.error QueryError.invalidArgument) ∧
      (truthyStr sid = true → fid ≠ [] → facc = [] → fname = [] →
        ∃ r : QueryResults, searchCandig f fmap sid fid facc fname = Except.ok r ∧
          ∀ i, axisLookup f.samples (sid.getD "") = some i →
            r = { features := (getHdf5IndicesCandig f.features fid).map Prod.fst,
                  expression := [((sid.getD ""), (getHdf5IndicesCandig f.features fid).map
                    (fun p => (f.expression.getD i []).getD p.2 0))] }) ∧
      (truthyStr sid = true → fid = [] → facc = [] → fname ≠ [] →
        ∃ r : QueryResults, searchCandig f fmap sid fid facc fname = Except.ok r) ∧
      (truthyStr sid = true → fid = [] → facc ≠ [] → fname = [] →
        ∃ r : QueryResults, searchCandig f fmap sid fid facc fname = Except.ok r) := by
  intro f fmap sid fid facc fname
  refine ⟨?_, ?_, ?_, ?_, ?_⟩
  · intro h1 h2
    have c1 : (!facc.isEmpty || !fname.isEmpty) = true := by
      rcases h1 with h | h <;> simp [h]
    have c2 : (!fid.isEmpty || (!facc.isEmpty && !fname.isEmpty)) = true := by
      rcases h2 with h | h
      · simp [h]
      · simp [h.1, h.2]
    simp only [searchCandig, c1, c2, if_true]
  · intro hsid h1 h2 h3
    subst h1
    subst h2
    subst h3
    simp [searchCandig, searchDispatchCandig, hsid]
  · intro hsid hfid h2 h3
    subst h2
    subst h3
    have hguard : (truthyStr sid && !fid.isEmpty) = true := by simp [hsid, hfid]
    have hred : searchCandig f fmap sid fid [] [] = searchDispatchCandig f sid fid := by
      simp [searchCandig]
    rw [hred]
    unfold searchDispatchCandig
    rw [if_pos hguard]
    have hax : dictGet (getHdf5IndicesService f.samples [sid.getD ""]) (sid.getD "") =
        axisLookup f.samples (sid.getD "") := dictGet_getHdf5IndicesService (by simp)
    cases hidx : axisLookup f.samples (sid.getD "") with
    | none =>
      rw [hax, hidx]
      refine ⟨{ features := [], expression := [] }, rfl, ?_⟩
      intro i hi
      exact absurd hi (by simp)
    | some j =>
      rw [hax, hidx]
      refine ⟨_, rfl, ?_⟩
      intro i hi
      injection hi with hj
      subst hj
      rfl
  · intro hsid h1 h2 hname
    subst h1
    subst h2
    have c1 : (!([] : List String).isEmpty || !fname.isEmpty) = true := by simp [hname]
    have c2 : (!([] : List String).isEmpty ||
        (!([] : List String).isEmpty && !fname.isEmpty)) = false := by simp
    simp only [searchCandig, c1, c2, if_true, Bool.false_eq_true, if_false]
    exact searchDispatchCandig_ok_of_sample hsid _
  · intro hsid h1 hacc h3
    subst h1
    subst h3
    have c1 : (!facc.isEmpty || !([] : List String).isEmpty) = true := by simp [hacc]
    have c2 : (!([] : List String).isEmpty ||
        (!facc.isEmpty && !([] : List String).isEmpty)) = false := by simp
    simp only [searchCandig, c1, c2, if_true, Bool.false_eq_true, if_false]
    exact searchDispatchCandig_ok_of_sample hsid _

/-- Witness for C8: no arguments and id+accession both raise
`InvalidArgument`; sample "S1" with feature-id list ["F2"] succeeds and
returns the 1-by-1 intersected sub-matrix. -/
theorem C8_search_argument_validation_witness :
    searchCandig sampleFile [] none [] [] [] = Except.error QueryError.invalidArgument ∧
    searchCandig sampleFile [] (some "S1") ["F2"] ["ACC"] [] =
      Except.error QueryError.invalidArgument ∧
    ∃ r, searchCandig sampleFile [] (some "S1") ["F2"] [] [] = Except.ok r ∧
      r = { features := ["F2"], expression := [("S1", [3])] } := by
  obtain ⟨r, hok, hchar⟩ :=
    (C8_search_argument_validation sampleFile [] (some "S1") ["F2"] [] []).2.2.1
      (by decide) (by decide) rfl rfl
  refine ⟨(C8_search_argument_validation sampleFile [] none [] [] []).2.1 rfl rfl rfl rfl,
    (C8_search_argument_validation sampleFile [] (some "S1") ["F2"] ["ACC"] []).1
      (Or.inl (by decide)) (Or.inl (by decide)), r, hok, ?_⟩
  rw [hchar 0 (by decide)]
  decide

section MultiFileScan

/-- One entry of the expression-file list held in the database: either the
matrix file is present and readable, or opening it raises `OSError`. -/
inductive MatrixSource where
  | readable (studyId : String) (f : HFile)
  | missing (studyId : String)

/-- `slice_expression_data` for a sample query: a missing or unreadable
matrix file raises `OSError` when opened, which the function catches, logs
as a warning, and converts to `None`; a readable file is opened and
queried. -/
def sliceExpressionData (src : MatrixSource) (sampleId : String) :
    Option (String × QueryResults) :=
  match src with
  | MatrixSource.missing _ => none
  | MatrixSource.readable sid f => some (sid, searchSample f sampleId)

/-- Whether this source raises `OSError` on open (and so is skipped with a
warning). -/
def isMissingSource : MatrixSource → Bool
  | MatrixSource.missing _ => true
  | MatrixSource.readable _ _ => false

/-- The caller loop over the expression files: each non-`None` per-file
response is appended, and each skipped file adds one warning. -/
def scanExpressionFiles (files : List MatrixSource) (sampleId : String) :
    List (String × QueryResults) × Nat :=
  files.foldl
    (fun acc src =>
      match sliceExpressionData src sampleId with
      | some r => (acc.1 ++ [r], acc.2)
      | none => (acc.1, acc.2 + 1))
    ([], 0)

theorem scanExpressionFiles_foldl_eq (sampleId : String) :
    ∀ (files : List MatrixSource) (acc : List (String × QueryResults) × Nat),
      files.foldl
        (fun acc src =>
          match sliceExpressionData src sampleId with
          | some r => (acc.1 ++ [r], acc.2)
          | none => (acc.1, acc.2 + 1)) acc =
      (acc.1 ++ files.filterMap (fun src => sliceExpressionData src sampleId),
        acc.2 + (files.filter isMissingSource).length)
  | [], acc => by simp
  | src :: rest, acc => by
    cases src with
    | readable sid f =>
      rw [List.foldl_cons, scanExpressionFiles_foldl_eq sampleId rest]
      simp [sliceExpressionData, isMissingSource, List.filterMap_cons]
    | missing sid =>
      rw [List.foldl_cons, scanExpressionFiles_foldl_eq sampleId rest]
      simp only [sliceExpressionData, isMissingSource, List.filterMap_cons, List.filter_cons]
      refine Prod.ext rfl ?_
      simp
      omega

/-- C9: a missing matrix file inside a multi-file expression scan is caught
per file: the scan returns exactly the responses of the readable files, in
order, one warning is recorded per bad file, and inserting a bad file
anywhere in the batch changes nothing except one extra warning — it never
aborts the scan. -/
theorem C9_per_file_skip :
    ∀ (files : List MatrixSource) (sampleId : String),
      (scanExpressionFiles files sampleId).1 =
        files.filterMap (fun src => sliceExpressionData src sampleId) ∧
      (scanExpressionFiles files sampleId).2 =
        (files.filter isMissingSource).length ∧
      (∀ xs ys sid, files = xs ++ MatrixSource.missing sid :: ys →
        (scanExpressionFiles files sampleId).1 =
          (scanExpressionFiles (xs ++ ys) sampleId).1 ∧
        (scanExpressionFiles files sampleId).2 =
          (scanExpressionFiles (xs ++ ys) sampleId).2 + 1) := by
  intro files sampleId
  have hmain : ∀ (fs : List MatrixSource),
      scanExpressionFiles fs sampleId =
        (fs.filterMap (fun src => sliceExpressionData src sampleId),
          (fs.filter isMissingSource).length) := by
    intro fs
    unfold scanExpressionFiles
    rw [scanExpressionFiles_foldl_eq]
    simp
  refine ⟨by rw [hmain], by rw [hmain], ?_⟩
  intro xs ys sid hsplit
  subst hsplit
  rw [hmain, hmain]
  constructor
  · simp [List.filterMap_append, List.filterMap_cons, sliceExpressionData]
  · simp [List.filter_append, List.filter_cons, isMissingSource]
    omega

/-- Witness for C9: a batch with one bad file in the middle returns the two
readable responses and one warning. -/
theorem C9_per_file_skip_witness :
    (scanExpressionFiles [MatrixSource.readable "st1" sampleFile,
        MatrixSource.missing "st2", MatrixSource.readable "st3" sampleFile] "S1").1 =
      (scanExpressionFiles [MatrixSource.readable "st1" sampleFile,
        MatrixSource.readable "st3" sampleFile] "S1").1 ∧
    (scanExpressionFiles [MatrixSource.readable "st1" sampleFile,
        MatrixSource.missing "st2", MatrixSource.readable "st3" sampleFile] "S1").2 =
      (scanExpressionFiles [MatrixSource.readable "st1" sampleFile,
        MatrixSource.readable "st3" sampleFile] "S1").2 + 1 :=
  (C9_per_file_skip [MatrixSource.readable "st1" sampleFile,
      MatrixSource.missing "st2", MatrixSource.readable "st3" sampleFile] "S1").2.2
    [MatrixSource.readable "st1" sampleFile] [MatrixSource.readable "st3" sampleFile]
    "st2" rfl

end MultiFileScan
